import Mathlib

set_option maxHeartbeats 1000000

/-!
Shallow embedding of the Sudoku CSP solver (main.py, class SudokuCSP).

The grid is a 9x9 matrix of naturals where 0 denotes an empty cell; the
Python list-of-lists is embedded as a function `Fin 9 → Fin 9 → Nat` and
the in-place assignment `self.grid[row][col] = v` becomes the functional
update `setCell`.  The recursive method `solve` is embedded with an
explicit fuel argument (Python recursion is unbounded; the development
proves that fuel `numEmpty g + 1` suffices and that the result is stable
for any larger fuel, which is exactly the spec's recursion-depth bound).
-/

namespace SudokuCSP

/-- A Sudoku grid: 9x9 matrix of naturals, 0 denotes an empty cell. -/
abbrev Grid := Fin 9 → Fin 9 → Nat

/-- Build a grid from a row-major list of rows; out-of-range entries are 0. -/
def mkGrid (rows : List (List Nat)) : Grid := fun r c => ((rows.getD r.val []).getD c.val 0)

/-- Functional update at one cell: models the assignment self.grid[row][col] = v. -/
def setCell (g : Grid) (r c : Fin 9) (v : Nat) : Grid :=
  fun r' c' => if r' = r ∧ c' = c then v else g r' c'

/-- Index inside the 3x3 box whose origin coordinate is (x / 3) * 3, matching
box_row, box_col = (row // 3) * 3, (col // 3) * 3 in the source. -/
def boxIdx (x : Fin 9) (i : Fin 3) : Fin 9 :=
  ⟨(x.val / 3) * 3 + i.val, by have hx := x.isLt; have hi := i.isLt; omega⟩

/-- Source method is_valid(row, col, num): true iff num occurs neither in row `row`,
nor in column `col`, nor in the 3x3 box with origin ((row/3)*3, (col/3)*3). -/
def is_valid (g : Grid) (row col : Fin 9) (num : Nat) : Bool :=
  if (List.finRange 9).any (fun c => g row c == num) then false
  else if (List.finRange 9).any (fun r => g r col == num) then false
  else if (List.finRange 3).any
      (fun i => (List.finRange 3).any (fun j => g (boxIdx row i) (boxIdx col j) == num)) then
    false
  else true

/-- Source method get_domain(row, col): empty list for a filled cell, otherwise the
digits of range(1, 10) that pass is_valid, in that order. -/
def get_domain (g : Grid) (row col : Fin 9) : List Nat :=
  if g row col != 0 then []
  else (List.range' 1 9).filter (fun num => is_valid g row col num)

/-- One cell coordinate. -/
abbrev Cell := Fin 9 × Fin 9

/-- Row-major position of a cell, the order of the two nested `for` loops. -/
def idx (p : Cell) : Nat := p.1.val * 9 + p.2.val

/-- All 81 cells in row-major order: `for row in range(9): for col in range(9)`. -/
def allCells : List Cell :=
  (List.finRange 9).flatMap (fun r => (List.finRange 9).map (fun c => (r, c)))

/-- One step of the MRV scan: the loop body of find_mrv_cell, carrying
(min_domain_size, best_cell) as the accumulator. -/
def mrvStep (g : Grid) (acc : Nat × Option (Fin 9 × Fin 9 × List Nat)) (p : Cell) :
    Nat × Option (Fin 9 × Fin 9 × List Nat) :=
  if g p.1 p.2 = 0 then
    if (get_domain g p.1 p.2).length < acc.1 then
      ((get_domain g p.1 p.2).length, some (p.1, p.2, get_domain g p.1 p.2))
    else acc
  else acc

/-- Source method find_mrv_cell: scan all cells in row-major order starting from
min_domain_size = 10 and best_cell = None, updating on a strictly smaller domain. -/
def find_mrv_cell (g : Grid) : Option (Fin 9 × Fin 9 × List Nat) :=
  (allCells.foldl (mrvStep g) (10, none)).2

/-- Number of empty (zero) cells of a grid. -/
def numEmpty (g : Grid) : Nat :=
  (Finset.univ.filter (fun p : Cell => g p.1 p.2 = 0)).card

/-- The for-num-in-domain loop of solve: place num, recurse via solveF, and on
failure reset the cell to 0 and try the next candidate. -/
def tryNums (solveF : Grid → Bool × Grid) (r c : Fin 9) : Grid → List Nat → Bool × Grid
  | g, [] => (false, g)
  | g, n :: rest =>
    match solveF (setCell g r c n) with
    | (true, g2) => (true, g2)
    | (false, g2) => tryNums solveF r c (setCell g2 r c 0) rest

/-- Fueled embedding of the recursive method solve.  The 0-fuel case is never
reached when fuel exceeds the number of empty cells (proved below). -/
def solveAux : Nat → Grid → Bool × Grid
  | 0, g => (false, g)
  | fuel + 1, g =>
    match find_mrv_cell g with
    | none => (true, g)
    | some (r, c, dom) => tryNums (solveAux fuel) r c g dom

/-- Source method solve: returns the Boolean result together with the final
state of self.grid. -/
def solve (g : Grid) : Bool × Grid := solveAux (numEmpty g + 1) g

/-- Instrumented variant of the candidate loop recording every grid state the
search passes through: after each placement and after each undo. -/
def tryNumsT (solveF : Grid → (Bool × Grid) × List Grid) (r c : Fin 9) :
    Grid → List Nat → (Bool × Grid) × List Grid
  | g, [] => ((false, g), [])
  | g, n :: rest =>
    let g1 := setCell g r c n
    match solveF g1 with
    | ((true, g2), tr) => ((true, g2), g1 :: tr)
    | ((false, g2), tr) =>
      let g3 := setCell g2 r c 0
      let res := tryNumsT solveF r c g3 rest
      (res.1, g1 :: (tr ++ g3 :: res.2))

/-- Instrumented variant of solveAux recording all intermediate grid states. -/
def solveAuxT : Nat → Grid → (Bool × Grid) × List Grid
  | 0, g => ((false, g), [])
  | fuel + 1, g =>
    match find_mrv_cell g with
    | none => ((true, g), [])
    | some (r, c, dom) => tryNumsT (solveAuxT fuel) r c g dom

/-- The trace-producing run of solve. -/
def solveTrace (g : Grid) : (Bool × Grid) × List Grid := solveAuxT (numEmpty g + 1) g

/-- The row of a grid as a function on column indices. -/
def rowCells (g : Grid) (r : Fin 9) : Fin 9 → Nat := fun c => g r c

/-- The column of a grid as a function on row indices. -/
def colCells (g : Grid) (c : Fin 9) : Fin 9 → Nat := fun r => g r c

/-- The i-th cell (row-major) of the 3x3 box with box coordinates (br, bc). -/
def boxCell (br bc : Fin 3) (i : Fin 9) : Cell :=
  (⟨br.val * 3 + i.val / 3, by have := br.isLt; have := i.isLt; omega⟩,
   ⟨bc.val * 3 + i.val % 3, by have := bc.isLt; have := i.isLt; omega⟩)

/-- The 3x3 box with box coordinates (br, bc) as a function on Fin 9. -/
def boxCells (g : Grid) (br bc : Fin 3) : Fin 9 → Nat :=
  fun i => g (boxCell br bc i).1 (boxCell br bc i).2

/-- A family of nine values is a permutation of the digits 1..9: every digit
occurs exactly once. -/
def permOf19 (f : Fin 9 → Nat) : Prop := ∀ v : Fin 9, ∃! i, f i = v.val + 1

/-- A complete valid Sudoku: every cell holds a digit in [1,9] and every row,
column and box is a permutation of 1..9. -/
def completeValid (g : Grid) : Prop :=
  (∀ r c, 1 ≤ g r c ∧ g r c ≤ 9) ∧
  (∀ r, permOf19 (rowCells g r)) ∧
  (∀ c, permOf19 (colCells g c)) ∧
  (∀ br bc, permOf19 (boxCells g br bc))

/-- The row/column/box uniqueness invariant: a non-zero value occurs at most once
in each row, each column and each box. -/
def consistent (g : Grid) : Prop :=
  (∀ r c₁ c₂, c₁ ≠ c₂ → g r c₁ ≠ 0 → g r c₁ ≠ g r c₂) ∧
  (∀ c r₁ r₂, r₁ ≠ r₂ → g r₁ c ≠ 0 → g r₁ c ≠ g r₂ c) ∧
  (∀ br bc i j, i ≠ j → boxCells g br bc i ≠ 0 → boxCells g br bc i ≠ boxCells g br bc j)

/-- s is a legal completion of g: it agrees with g on every filled cell and is a
complete valid Sudoku. -/
def legalCompletion (s g : Grid) : Prop :=
  (∀ r c, g r c ≠ 0 → s r c = g r c) ∧ completeValid s

/-- The caller's grid together with the solver's internal grid: the two distinct
Python objects involved in main(), namely the list `puzzle` owned by the caller
and the solver's `self.grid`. -/
structure PyState where
  caller : Grid
  solver : Grid

/-- SudokuCSP.__init__(grid): `self.grid = [row[:] for row in grid]` stores a copy
of the caller's rows in the solver, so that later writes to self.grid leave the
caller's grid untouched; the two components of the state evolve independently. -/
def construct (puzzle : Grid) : PyState := ⟨puzzle, puzzle⟩

/-- Calling solver.solve() on a state: only the solver's grid is read and written,
the caller's grid is a separate object and keeps its value. -/
def runSolve (st : PyState) : Bool × PyState :=
  ((solve st.solver).1, ⟨st.caller, (solve st.solver).2⟩)

/-- The unique completion of the sample puzzle of main(), used as a concrete
complete valid grid. -/
def S : Grid := mkGrid [
  [5, 3, 4, 6, 7, 8, 9, 1, 2],
  [6, 7, 2, 1, 9, 5, 3, 4, 8],
  [1, 9, 8, 3, 4, 2, 5, 6, 7],
  [8, 5, 9, 7, 6, 1, 4, 2, 3],
  [4, 2, 6, 8, 5, 3, 7, 9, 1],
  [7, 1, 3, 9, 2, 4, 8, 5, 6],
  [9, 6, 1, 5, 3, 7, 2, 8, 4],
  [2, 8, 7, 4, 1, 9, 6, 3, 5],
  [3, 4, 5, 2, 8, 6, 1, 7, 9]]

/-- S with its top-left cell blanked: a solvable grid with one empty cell. -/
def W1 : Grid := setCell S 0 0 0

/-- An unsolvable grid: the single empty cell (0,0) sees 2..9 in its row and 1 in
its column, so its candidate domain is empty. -/
def W2 : Grid := mkGrid [
  [0, 2, 3, 4, 5, 6, 7, 8, 9],
  [1, 1, 1, 1, 1, 1, 1, 1, 1],
  [1, 1, 1, 1, 1, 1, 1, 1, 1],
  [1, 1, 1, 1, 1, 1, 1, 1, 1],
  [1, 1, 1, 1, 1, 1, 1, 1, 1],
  [1, 1, 1, 1, 1, 1, 1, 1, 1],
  [1, 1, 1, 1, 1, 1, 1, 1, 1],
  [1, 1, 1, 1, 1, 1, 1, 1, 1],
  [1, 1, 1, 1, 1, 1, 1, 1, 1]]

instance (f : Fin 9 → Nat) : Decidable (permOf19 f) := by
  unfold permOf19 ExistsUnique; infer_instance

instance (g : Grid) : Decidable (completeValid g) := by
  unfold completeValid; infer_instance

instance (g : Grid) : Decidable (consistent g) := by
  unfold consistent; infer_instance

instance (s g : Grid) : Decidable (legalCompletion s g) := by
  unfold legalCompletion; infer_instance

/-- The box coordinates of a cell. -/
def boxOf (r c : Fin 9) : Fin 3 × Fin 3 :=
  (⟨r.val / 3, by have := r.isLt; omega⟩, ⟨c.val / 3, by have := c.isLt; omega⟩)

/-- The position of a cell inside its own box. -/
def boxPos (r c : Fin 9) : Fin 9 :=
  ⟨(r.val % 3) * 3 + c.val % 3, by have := r.isLt; have := c.isLt; omega⟩

/-- Conflict-free formulation of the uniqueness invariant: no two distinct cells of
the same row, column or box hold the same non-zero value. -/
def noConflict (g : Grid) : Prop :=
  ∀ r c r' c' : Fin 9, ¬(r = r' ∧ c = c') → g r c ≠ 0 →
    (r = r' ∨ c = c' ∨ (r.val / 3 = r'.val / 3 ∧ c.val / 3 = c'.val / 3)) →
    g r c ≠ g r' c'

/-- Domain size of a cell. -/
def domLen (g : Grid) (p : Cell) : Nat := (get_domain g p.1 p.2).length

/-- Invariant of the MRV scan after having processed the cells of `done`, with the
accumulator split into its min-size and best-cell components: the accumulator holds
the strict minimum-so-far with first-encountered tie break. -/
def mrvInv (g : Grid) (done : List Cell) (m : Nat)
    (bo : Option (Fin 9 × Fin 9 × List Nat)) : Prop :=
  match bo with
  | none => m = 10 ∧ ∀ p ∈ done, g p.1 p.2 ≠ 0
  | some (r, c, dom) =>
      (r, c) ∈ done ∧ g r c = 0 ∧ dom = get_domain g r c ∧ m = dom.length ∧
      ∀ p ∈ done, g p.1 p.2 = 0 →
        (idx p < idx (r, c) → m < domLen g p) ∧
        (idx (r, c) < idx p → m ≤ domLen g p)

/-- All cell values are at most 9. -/
def valBound (g : Grid) : Prop := ∀ r c, g r c ≤ 9

/-! ### Basic lemmas about setCell and numEmpty -/

lemma setCell_same (g : Grid) (r c : Fin 9) (v : Nat) : setCell g r c v r c = v := by
  simp [setCell]

lemma setCell_ne (g : Grid) (r c : Fin 9) (v : Nat) {r' c' : Fin 9}
    (h : ¬(r' = r ∧ c' = c)) : setCell g r c v r' c' = g r' c' := by
  simp only [setCell, if_neg h]

lemma setCell_setCell (g : Grid) (r c : Fin 9) (v w : Nat) :
    setCell (setCell g r c v) r c w = setCell g r c w := by
  funext r' c'
  by_cases h : r' = r ∧ c' = c <;> simp [setCell, h]

lemma setCell_eq_self (g : Grid) (r c : Fin 9) (hg : g r c = 0) :
    setCell g r c 0 = g := by
  funext r' c'
  by_cases h : r' = r ∧ c' = c
  · obtain ⟨h1, h2⟩ := h
    subst h1; subst h2
    simp [setCell, hg]
  · simp [setCell, h]

lemma numEmpty_le_81 (g : Grid) : numEmpty g ≤ 81 := by
  have h := Finset.card_filter_le (Finset.univ : Finset Cell) (fun p => g p.1 p.2 = 0)
  simpa [numEmpty] using h

lemma numEmpty_pos (g : Grid) (r c : Fin 9) (h : g r c = 0) : 0 < numEmpty g := by
  apply Finset.card_pos.mpr
  exact ⟨(r, c), by simp [h]⟩

lemma numEmpty_setCell (g : Grid) (r c : Fin 9) (v : Nat) (hg : g r c = 0) (hv : v ≠ 0) :
    numEmpty (setCell g r c v) = numEmpty g - 1 := by
  unfold numEmpty
  have hset : (Finset.univ.filter (fun p : Cell => setCell g r c v p.1 p.2 = 0)) =
      (Finset.univ.filter (fun p : Cell => g p.1 p.2 = 0)).erase (r, c) := by
    ext p
    simp only [Finset.mem_erase, Finset.mem_filter, Finset.mem_univ, true_and]
    unfold setCell
    constructor
    · intro h
      by_cases hc : p.1 = r ∧ p.2 = c
      · rw [if_pos hc] at h; exact absurd h hv
      · rw [if_neg hc] at h
        refine ⟨?_, h⟩
        intro hp; subst hp; exact hc ⟨rfl, rfl⟩
    · rintro ⟨hne, h⟩
      have hc : ¬(p.1 = r ∧ p.2 = c) := by
        rintro ⟨h1, h2⟩
        apply hne
        cases p
        simp_all
      rw [if_neg hc]; exact h
  rw [hset, Finset.card_erase_of_mem]
  simp [hg]

/-! ### Characterisation of is_valid and get_domain -/

lemma is_valid_iff (g : Grid) (row col : Fin 9) (num : Nat) :
    is_valid g row col num = true ↔
      (∀ c, g row c ≠ num) ∧ (∀ r, g r col ≠ num) ∧
      (∀ i j : Fin 3, g (boxIdx row i) (boxIdx col j) ≠ num) := by
  unfold is_valid
  by_cases h1 : (List.finRange 9).any (fun c => g row c == num) <;>
    by_cases h2 : (List.finRange 9).any (fun r => g r col == num) <;>
      by_cases h3 : (List.finRange 3).any
          (fun i => (List.finRange 3).any (fun j => g (boxIdx row i) (boxIdx col j) == num)) <;>
        simp_all [List.any_eq_true, List.any_eq_false]

lemma mem_range19 (n : Nat) : n ∈ List.range' 1 9 ↔ 1 ≤ n ∧ n ≤ 9 := by
  have h : List.range' 1 9 = [1, 2, 3, 4, 5, 6, 7, 8, 9] := rfl
  rw [h]
  simp
  omega

lemma get_domain_filled (g : Grid) (row col : Fin 9) (h : g row col ≠ 0) :
    get_domain g row col = [] := by
  simp [get_domain, h]

lemma get_domain_empty_cell (g : Grid) (row col : Fin 9) (h : g row col = 0) :
    get_domain g row col = (List.range' 1 9).filter (fun num => is_valid g row col num) := by
  simp [get_domain, h]

lemma mem_get_domain (g : Grid) (row col : Fin 9) (n : Nat) :
    n ∈ get_domain g row col ↔
      g row col = 0 ∧ 1 ≤ n ∧ n ≤ 9 ∧ is_valid g row col n = true := by
  unfold get_domain
  by_cases h : g row col = 0
  · simp only [h, bne_self_eq_false, Bool.false_eq_true, if_false, List.mem_filter, mem_range19]
    tauto
  · simp [h]

lemma get_domain_sorted (g : Grid) (row col : Fin 9) :
    List.Pairwise (· < ·) (get_domain g row col) := by
  unfold get_domain
  by_cases h : g row col = 0
  · simp only [h]
    apply List.Pairwise.filter
    decide
  · simp [h]

lemma get_domain_length_le (g : Grid) (row col : Fin 9) :
    (get_domain g row col).length ≤ 9 := by
  unfold get_domain
  by_cases h : g row col = 0
  · simp only [h]
    calc ((List.range' 1 9).filter _).length ≤ (List.range' 1 9).length :=
          List.length_filter_le _ _
      _ = 9 := by rfl
  · simp [h]

/-! ### Box arithmetic -/

lemma div3_iff_boxIdx (x x' : Fin 9) :
    x'.val / 3 = x.val / 3 ↔ ∃ i : Fin 3, x' = boxIdx x i := by
  constructor
  · intro h
    refine ⟨⟨x'.val % 3, Nat.mod_lt _ (by norm_num)⟩, ?_⟩
    apply Fin.ext
    show x'.val = (x.val / 3) * 3 + x'.val % 3
    have hx' := x'.isLt
    omega
  · rintro ⟨i, rfl⟩
    show (x.val / 3 * 3 + i.val) / 3 = x.val / 3
    have := i.isLt
    omega

lemma boxCell_boxOf (r c : Fin 9) :
    boxCell (boxOf r c).1 (boxOf r c).2 (boxPos r c) = (r, c) := by
  unfold boxCell boxOf boxPos
  have hr := r.isLt
  have hc := c.isLt
  refine Prod.ext (Fin.ext ?_) (Fin.ext ?_) <;> simp <;> omega

lemma boxCell_fst_div (br bc : Fin 3) (i : Fin 9) :
    (boxCell br bc i).1.val / 3 = br.val := by
  unfold boxCell
  have := i.isLt
  simp
  omega

lemma boxCell_snd_div (br bc : Fin 3) (i : Fin 9) :
    (boxCell br bc i).2.val / 3 = bc.val := by
  unfold boxCell
  have := i.isLt
  simp
  omega

lemma boxCell_inj (br bc : Fin 3) {i j : Fin 9} (h : boxCell br bc i = boxCell br bc j) :
    i = j := by
  unfold boxCell at h
  have h1 := congrArg (fun p : Cell => p.1.val) h
  have h2 := congrArg (fun p : Cell => p.2.val) h
  simp at h1 h2
  have := i.isLt
  have := j.isLt
  apply Fin.ext
  omega

lemma consistent_iff_noConflict (g : Grid) : consistent g ↔ noConflict g := by
  constructor
  · rintro ⟨hrow, hcol, hbox⟩ r c r' c' hne hnz hunit
    rcases hunit with h | h | ⟨h1, h2⟩
    · subst h
      have hcc : c ≠ c' := by
        intro hc; exact hne ⟨rfl, hc⟩
      exact hrow r c c' hcc hnz
    · subst h
      have hrr : r ≠ r' := by
        intro hr; exact hne ⟨hr, rfl⟩
      exact hcol c r r' hrr hnz
    · have e1 : boxOf r' c' = boxOf r c := by
        unfold boxOf
        refine Prod.ext (Fin.ext ?_) (Fin.ext ?_) <;> simp [h1, h2]
      have hij : boxPos r c ≠ boxPos r' c' := by
        intro he
        apply hne
        have := boxCell_boxOf r c
        have h2' := boxCell_boxOf r' c'
        rw [e1] at h2'
        rw [he] at this
        rw [this] at h2'
        exact ⟨congrArg Prod.fst h2', congrArg Prod.snd h2'⟩
      have hb := hbox (boxOf r c).1 (boxOf r c).2 (boxPos r c) (boxPos r' c') hij
      unfold boxCells at hb
      rw [boxCell_boxOf r c] at hb
      rw [← e1, boxCell_boxOf r' c'] at hb
      exact hb hnz
  · intro h
    refine ⟨?_, ?_, ?_⟩
    · intro r c₁ c₂ hne hnz
      exact h r c₁ r c₂ (fun hp => hne hp.2) hnz (Or.inl rfl)
    · intro c r₁ r₂ hne hnz
      exact h r₁ c r₂ c (fun hp => hne hp.1) hnz (Or.inr (Or.inl rfl))
    · intro br bc i j hij hnz
      unfold boxCells
      apply h
      · intro hp
        apply hij
        apply boxCell_inj br bc
        exact Prod.ext hp.1 hp.2
      · exact hnz
      · right; right
        constructor
        · rw [boxCell_fst_div, boxCell_fst_div]
        · rw [boxCell_snd_div, boxCell_snd_div]

lemma is_valid_iff_conflict (g : Grid) (row col : Fin 9) (num : Nat) :
    is_valid g row col num = true ↔
      ∀ r c : Fin 9,
        (r = row ∨ c = col ∨ (r.val / 3 = row.val / 3 ∧ c.val / 3 = col.val / 3)) →
        g r c ≠ num := by
  rw [is_valid_iff]
  constructor
  · rintro ⟨h1, h2, h3⟩ r c hunit
    rcases hunit with h | h | ⟨hr, hc⟩
    · subst h; exact h1 c
    · subst h; exact h2 r
    · obtain ⟨i, rfl⟩ := (div3_iff_boxIdx row r).mp hr
      obtain ⟨j, rfl⟩ := (div3_iff_boxIdx col c).mp hc
      exact h3 i j
  · intro h
    refine ⟨?_, ?_, ?_⟩
    · intro c; exact h row c (Or.inl rfl)
    · intro r; exact h r col (Or.inr (Or.inl rfl))
    · intro i j
      apply h
      right; right
      constructor
      · exact (div3_iff_boxIdx row (boxIdx row i)).mpr ⟨i, rfl⟩
      · exact (div3_iff_boxIdx col (boxIdx col j)).mpr ⟨j, rfl⟩

/-! ### The MRV scan -/

lemma idx_inj {p q : Cell} (h : idx p = idx q) : p = q := by
  have h1 : p.1.val * 9 + p.2.val = q.1.val * 9 + q.2.val := h
  have hp2 := p.2.isLt
  have hq2 := q.2.isLt
  have hpq : p.1.val = q.1.val ∧ p.2.val = q.2.val := by omega
  exact Prod.ext (Fin.ext hpq.1) (Fin.ext hpq.2)

lemma mrvStep_inv (g : Grid) (done : List Cell) (acc : Nat × Option (Fin 9 × Fin 9 × List Nat))
    (q : Cell) (hq : ∀ p ∈ done, idx p < idx q) (hInv : mrvInv g done acc.1 acc.2) :
    mrvInv g (done ++ [q]) (mrvStep g acc q).1 (mrvStep g acc q).2 := by
  obtain ⟨m, bo⟩ := acc
  obtain ⟨qr, qc⟩ := q
  unfold mrvStep
  by_cases hz : g qr qc = 0
  · simp only [if_pos hz]
    rcases bo with _ | ⟨⟨r, c, dom⟩⟩
    · obtain ⟨hm, hdone⟩ := hInv
      subst hm
      have hlt : (get_domain g qr qc).length < 10 :=
        lt_of_le_of_lt (get_domain_length_le g qr qc) (by norm_num)
      simp only [if_pos hlt]
      refine ⟨by simp, hz, rfl, rfl, ?_⟩
      intro p hp hpz
      rcases List.mem_append.mp hp with hp | hp
      · exact absurd hpz (hdone p hp)
      · have hpq : p = (qr, qc) := by simpa using hp
        subst hpq
        exact ⟨fun h => absurd h (lt_irrefl _), fun h => absurd h (lt_irrefl _)⟩
    · obtain ⟨hmem, hrc0, hdom, hm, hmin⟩ := hInv
      have hlen : dom.length = domLen g (r, c) := by
        unfold domLen
        rw [hdom]
      by_cases hlt : (get_domain g qr qc).length < m
      · simp only [if_pos hlt]
        refine ⟨by simp, hz, rfl, rfl, ?_⟩
        intro p hp hpz
        rcases List.mem_append.mp hp with hp | hp
        · have hpidx := hq p hp
          refine ⟨fun _ => ?_, fun hgt => ?_⟩
          · rcases lt_trichotomy (idx p) (idx (r, c)) with ho | ho | ho
            · have := (hmin p hp hpz).1 ho
              omega
            · have hpe : p = (r, c) := idx_inj ho
              subst hpe
              omega
            · have := (hmin p hp hpz).2 ho
              omega
          · exact absurd hgt (by omega)
        · have hpq : p = (qr, qc) := by simpa using hp
          subst hpq
          exact ⟨fun h => absurd h (lt_irrefl _), fun h => absurd h (lt_irrefl _)⟩
      · simp only [if_neg hlt]
        have hrcq : idx (r, c) < idx (qr, qc) := hq (r, c) hmem
        refine ⟨List.mem_append_left _ hmem, hrc0, hdom, hm, ?_⟩
        intro p hp hpz
        rcases List.mem_append.mp hp with hp | hp
        · exact hmin p hp hpz
        · have hpq : p = (qr, qc) := by simpa using hp
          subst hpq
          refine ⟨fun h => absurd h (by omega), fun _ => ?_⟩
          have hdl : domLen g (qr, qc) = (get_domain g qr qc).length := rfl
          omega
  · simp only [if_neg hz]
    rcases bo with _ | ⟨⟨r, c, dom⟩⟩
    · obtain ⟨hm, hdone⟩ := hInv
      refine ⟨hm, ?_⟩
      intro p hp
      rcases List.mem_append.mp hp with hp | hp
      · exact hdone p hp
      · have hpq : p = (qr, qc) := by simpa using hp
        subst hpq
        exact hz
    · obtain ⟨hmem, hrc0, hdom, hm, hmin⟩ := hInv
      refine ⟨List.mem_append_left _ hmem, hrc0, hdom, hm, ?_⟩
      intro p hp hpz
      rcases List.mem_append.mp hp with hp | hp
      · exact hmin p hp hpz
      · have hpq : p = (qr, qc) := by simpa using hp
        subst hpq
        exact absurd hpz hz

lemma mrv_fold (g : Grid) (l : List Cell) :
    ∀ (done : List Cell) (acc : Nat × Option (Fin 9 × Fin 9 × List Nat)),
      List.Pairwise (fun a b => idx a < idx b) (done ++ l) →
      mrvInv g done acc.1 acc.2 →
      mrvInv g (done ++ l) (l.foldl (mrvStep g) acc).1 (l.foldl (mrvStep g) acc).2 := by
  induction l with
  | nil => intro done acc _ hInv; simpa using hInv
  | cons q l' ih =>
    intro done acc hPair hInv
    have hcross : ∀ p ∈ done, idx p < idx q := by
      have hx := (List.pairwise_append.mp hPair).2.2
      intro p hp
      exact hx p hp q (by simp)
    have hstep : mrvInv g (done ++ [q]) (mrvStep g acc q).1 (mrvStep g acc q).2 :=
      mrvStep_inv g done acc q hcross hInv
    have hPair' : List.Pairwise (fun a b => idx a < idx b) ((done ++ [q]) ++ l') := by
      rw [List.append_assoc]
      simpa using hPair
    have hres := ih (done ++ [q]) (mrvStep g acc q) hPair' hstep
    simpa [List.append_assoc] using hres

lemma allCells_pairwise : List.Pairwise (fun a b => idx a < idx b) allCells := by decide

lemma mem_allCells : ∀ p : Cell, p ∈ allCells := by decide

lemma find_mrv_inv (g : Grid) :
    mrvInv g allCells (allCells.foldl (mrvStep g) (10, none)).1 (find_mrv_cell g) := by
  have h0 : mrvInv g [] 10 (none : Option (Fin 9 × Fin 9 × List Nat)) := ⟨rfl, by simp⟩
  have h := mrv_fold g allCells [] (10, none) (by simpa using allCells_pairwise) h0
  simpa using h

lemma find_mrv_cell_eq_none_iff (g : Grid) :
    find_mrv_cell g = none ↔ ∀ r c, g r c ≠ 0 := by
  have hInv := find_mrv_inv g
  constructor
  · intro h r c
    rw [h] at hInv
    exact hInv.2 (r, c) (mem_allCells (r, c))
  · intro h
    cases hacc : find_mrv_cell g with
    | none => rfl
    | some v =>
      obtain ⟨r, c, dom⟩ := v
      rw [hacc] at hInv
      exact absurd hInv.2.1 (h r c)

lemma find_mrv_cell_some (g : Grid) (r c : Fin 9) (dom : List Nat)
    (h : find_mrv_cell g = some (r, c, dom)) :
    g r c = 0 ∧ dom = get_domain g r c ∧
      ∀ r' c' : Fin 9, g r' c' = 0 →
        (idx (r', c') < idx (r, c) → dom.length < domLen g (r', c')) ∧
        (idx (r, c) < idx (r', c') → dom.length ≤ domLen g (r', c')) := by
  have hInv := find_mrv_inv g
  rw [h] at hInv
  obtain ⟨_, hrc0, hdom, hm, hmin⟩ := hInv
  refine ⟨hrc0, hdom, ?_⟩
  intro r' c' hz
  have hres := hmin (r', c') (mem_allCells (r', c')) hz
  rw [hm] at hres
  exact hres

/-! ### Restoration on failure, clue preservation, fuel stability -/

lemma mem_get_domain_ne_zero (g : Grid) (r c : Fin 9) {n : Nat}
    (h : n ∈ get_domain g r c) : n ≠ 0 := by
  have := (mem_get_domain g r c n).mp h
  omega

lemma tryNums_restore (f : Grid → Bool × Grid) (r c : Fin 9)
    (hf : ∀ g', (f g').1 = false → (f g').2 = g') :
    ∀ (dom : List Nat) (g : Grid), g r c = 0 →
      (tryNums f r c g dom).1 = false → (tryNums f r c g dom).2 = g := by
  intro dom
  induction dom with
  | nil => intro g _ _; rfl
  | cons n rest ih =>
    intro g hg hfail
    cases hres : f (setCell g r c n) with
    | mk b g2 =>
      cases b with
      | true => simp [tryNums, hres] at hfail
      | false =>
        simp only [tryNums, hres] at hfail ⊢
        have hg2 : g2 = setCell g r c n := by
          have hx := hf (setCell g r c n) (by rw [hres])
          rw [hres] at hx
          exact hx
        have hreset : setCell g2 r c 0 = g := by
          rw [hg2, setCell_setCell, setCell_eq_self g r c hg]
        rw [hreset] at hfail ⊢
        exact ih g hg hfail

lemma solveAux_restore : ∀ (fuel : Nat) (g : Grid),
    (solveAux fuel g).1 = false → (solveAux fuel g).2 = g := by
  intro fuel
  induction fuel with
  | zero => intro g _; rfl
  | succ fuel ih =>
    intro g hfail
    cases hmrv : find_mrv_cell g with
    | none => simp [solveAux, hmrv] at hfail
    | some v =>
      obtain ⟨r, c, dom⟩ := v
      simp only [solveAux, hmrv] at hfail ⊢
      have hrc := (find_mrv_cell_some g r c dom hmrv).1
      exact tryNums_restore (solveAux fuel) r c ih dom g hrc hfail

lemma tryNums_extends (f : Grid → Bool × Grid) (r c : Fin 9)
    (hf : ∀ g' (r' c' : Fin 9), g' r' c' ≠ 0 → (f g').2 r' c' = g' r' c') :
    ∀ (dom : List Nat) (g : Grid), g r c = 0 →
      ∀ r' c', g r' c' ≠ 0 → (tryNums f r c g dom).2 r' c' = g r' c' := by
  intro dom
  induction dom with
  | nil => intro g _ r' c' _; rfl
  | cons n rest ih =>
    intro g hg r' c' hnz
    have hne : ¬(r' = r ∧ c' = c) := by
      rintro ⟨h1, h2⟩
      subst h1; subst h2
      exact hnz hg
    have hset : setCell g r c n r' c' = g r' c' := setCell_ne g r c n hne
    cases hres : f (setCell g r c n) with
    | mk b g2 =>
      cases b with
      | true =>
        have hx : g2 r' c' = setCell g r c n r' c' := by
          have hy := hf (setCell g r c n) r' c' (by rw [hset]; exact hnz)
          rw [hres] at hy
          exact hy
        simp only [tryNums, hres]
        rw [hx, hset]
      | false =>
        have hx : g2 r' c' = setCell g r c n r' c' := by
          have hy := hf (setCell g r c n) r' c' (by rw [hset]; exact hnz)
          rw [hres] at hy
          exact hy
        have h2 : g2 r' c' = g r' c' := by rw [hx, hset]
        have h3 : setCell g2 r c 0 r' c' = g r' c' := by
          rw [setCell_ne _ _ _ _ hne, h2]
        have h4 : setCell g2 r c 0 r c = 0 := setCell_same _ _ _ _
        have h5 := ih (setCell g2 r c 0) h4 r' c' (by rw [h3]; exact hnz)
        simp only [tryNums, hres]
        rw [h5, h3]

lemma solveAux_extends : ∀ (fuel : Nat) (g : Grid) (r' c' : Fin 9),
    g r' c' ≠ 0 → (solveAux fuel g).2 r' c' = g r' c' := by
  intro fuel
  induction fuel with
  | zero => intro g r' c' _; rfl
  | succ fuel ih =>
    intro g r' c' hnz
    unfold solveAux
    cases hmrv : find_mrv_cell g with
    | none => rfl
    | some v =>
      obtain ⟨r, c, dom⟩ := v
      have hrc := (find_mrv_cell_some g r c dom hmrv).1
      exact tryNums_extends (solveAux fuel) r c ih dom g hrc r' c' hnz

lemma tryNums_congr (f1 f2 : Grid → Bool × Grid) (r c : Fin 9)
    (hrestore : ∀ g', (f1 g').1 = false → (f1 g').2 = g') :
    ∀ (dom : List Nat) (g : Grid), g r c = 0 →
      (∀ n ∈ dom, f1 (setCell g r c n) = f2 (setCell g r c n)) →
      tryNums f1 r c g dom = tryNums f2 r c g dom := by
  intro dom
  induction dom with
  | nil => intro g _ _; rfl
  | cons n rest ih =>
    intro g hg hagree
    have heq := hagree n (by simp)
    unfold tryNums
    rw [← heq]
    cases hres : f1 (setCell g r c n) with
    | mk b g2 =>
      cases b with
      | true => rfl
      | false =>
        have hg2 : g2 = setCell g r c n := by
          have hx := hrestore (setCell g r c n) (by rw [hres])
          rw [hres] at hx
          exact hx
        have hreset : setCell g2 r c 0 = g := by
          rw [hg2, setCell_setCell, setCell_eq_self g r c hg]
        show tryNums f1 r c (setCell g2 r c 0) rest = tryNums f2 r c (setCell g2 r c 0) rest
        rw [hreset]
        exact ih g hg (fun m hm => hagree m (by simp [hm]))

lemma solveAux_stable : ∀ (fuel : Nat) (g : Grid), numEmpty g < fuel →
    solveAux fuel g = solveAux (numEmpty g + 1) g := by
  intro fuel
  induction fuel using Nat.strong_induction_on with
  | _ fuel ih =>
    intro g hfuel
    match fuel, hfuel with
    | fuel + 1, hfuel =>
      unfold solveAux
      cases hmrv : find_mrv_cell g with
      | none => rfl
      | some v =>
        obtain ⟨r, c, dom⟩ := v
        obtain ⟨hrc, hdom, _⟩ := find_mrv_cell_some g r c dom hmrv
        have hpos : 0 < numEmpty g := numEmpty_pos g r c hrc
        apply tryNums_congr (solveAux fuel) (solveAux (numEmpty g)) r c
          (solveAux_restore fuel) dom g hrc
        intro n hn
        have hnz : n ≠ 0 := mem_get_domain_ne_zero g r c (hdom ▸ hn)
        have hlt : numEmpty (setCell g r c n) = numEmpty g - 1 :=
          numEmpty_setCell g r c n hrc hnz
        have e1 : solveAux fuel (setCell g r c n) =
            solveAux (numEmpty (setCell g r c n) + 1) (setCell g r c n) := by
          apply ih fuel (Nat.lt_succ_self _)
          omega
        have e2 : solveAux (numEmpty g) (setCell g r c n) =
            solveAux (numEmpty (setCell g r c n) + 1) (setCell g r c n) := by
          apply ih (numEmpty g) hfuel
          omega
        rw [e1, e2]

lemma solve_eq_solveAux (g : Grid) (fuel : Nat) (h : numEmpty g < fuel) :
    solveAux fuel g = solve g :=
  solveAux_stable fuel g h

/-! ### Consistency preservation and soundness of the search -/

lemma noConflict_setCell (g : Grid) (r c : Fin 9) (n : Nat)
    (hg : noConflict g) (hrc : g r c = 0) (hvalid : is_valid g r c n = true) :
    noConflict (setCell g r c n) := by
  have hv := (is_valid_iff_conflict g r c n).mp hvalid
  intro r1 c1 r2 c2 hne hnz hunit
  by_cases h1 : r1 = r ∧ c1 = c
  · obtain ⟨e1, e2⟩ := h1
    subst e1; subst e2
    by_cases h2 : r2 = r1 ∧ c2 = c1
    · exact absurd ⟨h2.1.symm, h2.2.symm⟩ hne
    · rw [setCell_same, setCell_ne _ _ _ _ h2]
      have hrel : r2 = r1 ∨ c2 = c1 ∨ (r2.val / 3 = r1.val / 3 ∧ c2.val / 3 = c1.val / 3) := by
        rcases hunit with h | h | ⟨ha, hb⟩
        · exact Or.inl h.symm
        · exact Or.inr (Or.inl h.symm)
        · exact Or.inr (Or.inr ⟨ha.symm, hb.symm⟩)
      exact (hv r2 c2 hrel).symm
  · rw [setCell_ne _ _ _ _ h1] at hnz ⊢
    by_cases h2 : r2 = r ∧ c2 = c
    · obtain ⟨e1, e2⟩ := h2
      subst e1; subst e2
      rw [setCell_same]
      have hrel : r1 = r2 ∨ c1 = c2 ∨ (r1.val / 3 = r2.val / 3 ∧ c1.val / 3 = c2.val / 3) :=
        hunit
      exact hv r1 c1 hrel
    · rw [setCell_ne _ _ _ _ h2]
      exact hg r1 c1 r2 c2 hne hnz hunit

lemma valBound_setCell (g : Grid) (r c : Fin 9) (n : Nat)
    (hg : valBound g) (hn : n ≤ 9) : valBound (setCell g r c n) := by
  intro r' c'
  by_cases h : r' = r ∧ c' = c
  · obtain ⟨e1, e2⟩ := h
    subst e1; subst e2
    rw [setCell_same]
    exact hn
  · rw [setCell_ne _ _ _ _ h]
    exact hg r' c'

lemma tryNums_sound (f : Grid → Bool × Grid) (r c : Fin 9)
    (hf : ∀ g', noConflict g' → valBound g' → (f g').1 = true →
      noConflict (f g').2 ∧ valBound (f g').2 ∧ (∀ r' c', (f g').2 r' c' ≠ 0))
    (hrestore : ∀ g', (f g').1 = false → (f g').2 = g') :
    ∀ (dom : List Nat) (g : Grid), g r c = 0 → noConflict g → valBound g →
      (∀ n ∈ dom, n ≤ 9 ∧ n ≠ 0 ∧ is_valid g r c n = true) →
      (tryNums f r c g dom).1 = true →
      noConflict (tryNums f r c g dom).2 ∧ valBound (tryNums f r c g dom).2 ∧
        (∀ r' c', (tryNums f r c g dom).2 r' c' ≠ 0) := by
  intro dom
  induction dom with
  | nil =>
    intro g _ _ _ _ htrue
    simp [tryNums] at htrue
  | cons n rest ih =>
    intro g hg hnc hvb hdom htrue
    obtain ⟨hn9, hn0, hnvalid⟩ := hdom n (by simp)
    have hncb : noConflict (setCell g r c n) := noConflict_setCell g r c n hnc hg hnvalid
    have hvbb : valBound (setCell g r c n) := valBound_setCell g r c n hvb hn9
    cases hres : f (setCell g r c n) with
    | mk b g2 =>
      cases b with
      | true =>
        simp only [tryNums, hres] at htrue ⊢
        have hx := hf (setCell g r c n) hncb hvbb (by rw [hres])
        rw [hres] at hx
        exact hx
      | false =>
        simp only [tryNums, hres] at htrue ⊢
        have hg2 : g2 = setCell g r c n := by
          have hx := hrestore (setCell g r c n) (by rw [hres])
          rw [hres] at hx
          exact hx
        have hreset : setCell g2 r c 0 = g := by
          rw [hg2, setCell_setCell, setCell_eq_self g r c hg]
        rw [hreset] at htrue ⊢
        exact ih g hg hnc hvb (fun m hm => hdom m (by simp [hm])) htrue

lemma solveAux_sound : ∀ (fuel : Nat) (g : Grid), noConflict g → valBound g →
    (solveAux fuel g).1 = true →
    noConflict (solveAux fuel g).2 ∧ valBound (solveAux fuel g).2 ∧
      (∀ r' c', (solveAux fuel g).2 r' c' ≠ 0) := by
  intro fuel
  induction fuel with
  | zero =>
    intro g _ _ htrue
    simp [solveAux] at htrue
  | succ fuel ih =>
    intro g hnc hvb htrue
    cases hmrv : find_mrv_cell g with
    | none =>
      simp only [solveAux, hmrv] at htrue ⊢
      exact ⟨hnc, hvb, fun r' c' => (find_mrv_cell_eq_none_iff g).mp hmrv r' c'⟩
    | some v =>
      obtain ⟨r, c, dom⟩ := v
      simp only [solveAux, hmrv] at htrue ⊢
      obtain ⟨hrc, hdom, _⟩ := find_mrv_cell_some g r c dom hmrv
      apply tryNums_sound (solveAux fuel) r c ih (solveAux_restore fuel) dom g hrc hnc hvb
        ?_ htrue
      intro n hn
      have := (mem_get_domain g r c n).mp (hdom ▸ hn)
      exact ⟨by omega, by omega, this.2.2.2⟩

/-! ### Completeness: a solvable grid is solved -/

lemma permOf19_distinct {f : Fin 9 → Nat} (hperm : permOf19 f)
    (hrange : ∀ i, 1 ≤ f i ∧ f i ≤ 9) : ∀ i j, i ≠ j → f i ≠ f j := by
  intro i j hij heq
  have hi := hrange i
  obtain ⟨k, hk, huniq⟩ := hperm ⟨f i - 1, by omega⟩
  have h1 : i = k := huniq i (by simp; omega)
  have h2 : j = k := huniq j (by simp; omega)
  exact hij (h1.trans h2.symm)

lemma completeValid_noConflict {s : Grid} (h : completeValid s) : noConflict s := by
  apply (consistent_iff_noConflict s).mp
  obtain ⟨hrange, hrow, hcol, hbox⟩ := h
  refine ⟨?_, ?_, ?_⟩
  · intro r c₁ c₂ hne _
    exact permOf19_distinct (hrow r) (fun i => hrange r i) c₁ c₂ hne
  · intro c r₁ r₂ hne _
    exact permOf19_distinct (hcol c) (fun i => hrange i c) r₁ r₂ hne
  · intro br bc i j hne _
    exact permOf19_distinct (hbox br bc) (fun i => hrange _ _) i j hne

lemma legalCompletion_mem_domain {s g : Grid} (hs : legalCompletion s g)
    (r c : Fin 9) (hrc : g r c = 0) : s r c ∈ get_domain g r c := by
  obtain ⟨hext, hvalid⟩ := hs
  have hrange := hvalid.1 r c
  have hnc := completeValid_noConflict hvalid
  rw [mem_get_domain]
  refine ⟨hrc, hrange.1, hrange.2, ?_⟩
  rw [is_valid_iff_conflict]
  intro r' c' hrel
  by_cases hz : g r' c' = 0
  · rw [hz]
    omega
  · rw [← hext r' c' hz]
    have hne : ¬(r' = r ∧ c' = c) := by
      rintro ⟨e1, e2⟩
      subst e1; subst e2
      exact hz hrc
    have hs' := hvalid.1 r' c'
    exact hnc r' c' r c hne (by omega) hrel

lemma legalCompletion_setCell {s g : Grid} (hs : legalCompletion s g)
    (r c : Fin 9) : legalCompletion s (setCell g r c (s r c)) := by
  obtain ⟨hext, hvalid⟩ := hs
  refine ⟨?_, hvalid⟩
  intro r' c' hnz
  by_cases h : r' = r ∧ c' = c
  · obtain ⟨e1, e2⟩ := h
    subst e1; subst e2
    rw [setCell_same]
  · rw [setCell_ne _ _ _ _ h] at hnz ⊢
    exact hext r' c' hnz

lemma tryNums_complete (f : Grid → Bool × Grid) (r c : Fin 9)
    (hrestore : ∀ g', (f g').1 = false → (f g').2 = g') :
    ∀ (dom : List Nat) (g : Grid), g r c = 0 →
      (∃ n ∈ dom, (f (setCell g r c n)).1 = true) →
      (tryNums f r c g dom).1 = true := by
  intro dom
  induction dom with
  | nil =>
    rintro g _ ⟨n, hn, _⟩
    simp at hn
  | cons n rest ih =>
    rintro g hg ⟨m, hm, hmtrue⟩
    cases hres : f (setCell g r c n) with
    | mk b g2 =>
      cases b with
      | true => simp [tryNums, hres]
      | false =>
        simp only [tryNums, hres]
        have hg2 : g2 = setCell g r c n := by
          have hx := hrestore (setCell g r c n) (by rw [hres])
          rw [hres] at hx
          exact hx
        have hreset : setCell g2 r c 0 = g := by
          rw [hg2, setCell_setCell, setCell_eq_self g r c hg]
        rw [hreset]
        apply ih g hg
        refine ⟨m, ?_, hmtrue⟩
        rcases List.mem_cons.mp hm with hmn | hmr
        · subst hmn
          rw [hres] at hmtrue
          simp at hmtrue
        · exact hmr

lemma solveAux_complete : ∀ (fuel : Nat) (g : Grid), numEmpty g < fuel →
    (∃ s, legalCompletion s g) → (solveAux fuel g).1 = true := by
  intro fuel
  induction fuel with
  | zero => intro g hlt; omega
  | succ fuel ih =>
    rintro g hlt ⟨s, hs⟩
    cases hmrv : find_mrv_cell g with
    | none => simp [solveAux, hmrv]
    | some v =>
      obtain ⟨r, c, dom⟩ := v
      simp only [solveAux, hmrv]
      obtain ⟨hrc, hdom, _⟩ := find_mrv_cell_some g r c dom hmrv
      apply tryNums_complete (solveAux fuel) r c (solveAux_restore fuel) dom g hrc
      refine ⟨s r c, ?_, ?_⟩
      · rw [hdom]
        exact legalCompletion_mem_domain hs r c hrc
      · apply ih
        · have hnz : s r c ≠ 0 := by
            have := hs.2.1 r c
            omega
          rw [numEmpty_setCell g r c (s r c) hrc hnz]
          have := numEmpty_pos g r c hrc
          omega
        · exact ⟨s, legalCompletion_setCell hs r c⟩

/-! ### Pigeonhole: a filled conflict-free grid is a complete valid Sudoku -/

lemma permOf19_of_inj (f : Fin 9 → Nat) (h1 : ∀ i, 1 ≤ f i ∧ f i ≤ 9)
    (h2 : ∀ i j, i ≠ j → f i ≠ f j) : permOf19 f := by
  set F : Fin 9 → Fin 9 := fun i =>
    ⟨f i - 1, by have := (h1 i).1; have := (h1 i).2; omega⟩ with hF
  have hinj : Function.Injective F := by
    intro i j hij
    by_contra hne
    apply h2 i j hne
    have hval := congrArg Fin.val hij
    simp only [hF] at hval
    have hi := h1 i
    have hj := h1 j
    omega
  have hsurj : Function.Surjective F := Finite.injective_iff_surjective.mp hinj
  intro v
  obtain ⟨i, hi⟩ := hsurj v
  have hival := congrArg Fin.val hi
  simp only [hF] at hival
  have hirange := h1 i
  refine ⟨i, by omega, ?_⟩
  intro j hj
  by_contra hne
  exact h2 j i hne (by omega)

lemma completeValid_of_filled (g : Grid) (hnc : noConflict g)
    (hfill : ∀ r c, g r c ≠ 0) (hbound : valBound g) : completeValid g := by
  have hrange : ∀ r c, 1 ≤ g r c ∧ g r c ≤ 9 := by
    intro r c
    have h1 := hfill r c
    have h2 := hbound r c
    omega
  have hcons := (consistent_iff_noConflict g).mpr hnc
  refine ⟨hrange, ?_, ?_, ?_⟩
  · intro r
    apply permOf19_of_inj
    · intro i; exact hrange r i
    · intro i j hij; exact hcons.1 r i j hij (hfill r i)
  · intro c
    apply permOf19_of_inj
    · intro i; exact hrange i c
    · intro i j hij; exact hcons.2.1 c i j hij (hfill i c)
  · intro br bc
    apply permOf19_of_inj
    · intro i; exact hrange _ _
    · intro i j hij; exact hcons.2.2 br bc i j hij (hfill _ _)

/-! ### The instrumented run projects onto the plain run -/

lemma tryNumsT_fst (fT : Grid → (Bool × Grid) × List Grid) (f : Grid → Bool × Grid)
    (r c : Fin 9) (hf : ∀ g', (fT g').1 = f g') :
    ∀ (dom : List Nat) (g : Grid), (tryNumsT fT r c g dom).1 = tryNums f r c g dom := by
  intro dom
  induction dom with
  | nil => intro g; rfl
  | cons n rest ih =>
    intro g
    cases hres : fT (setCell g r c n) with
    | mk p tr =>
      obtain ⟨b, g2⟩ := p
      have hfres : f (setCell g r c n) = (b, g2) := by
        rw [← hf]
        rw [hres]
      cases b with
      | true => simp [tryNumsT, tryNums, hres, hfres]
      | false => simp [tryNumsT, tryNums, hres, hfres, ih]

lemma solveAuxT_fst : ∀ (fuel : Nat) (g : Grid), (solveAuxT fuel g).1 = solveAux fuel g := by
  intro fuel
  induction fuel with
  | zero => intro g; rfl
  | succ fuel ih =>
    intro g
    cases hmrv : find_mrv_cell g with
    | none => simp [solveAuxT, solveAux, hmrv]
    | some v =>
      obtain ⟨r, c, dom⟩ := v
      simp only [solveAuxT, solveAux, hmrv]
      exact tryNumsT_fst (solveAuxT fuel) (solveAux fuel) r c ih dom g

lemma solveTrace_fst (g : Grid) : (solveTrace g).1 = solve g :=
  solveAuxT_fst (numEmpty g + 1) g

/-! ### Every intermediate grid state keeps the uniqueness invariant -/

lemma tryNumsT_trace (fuel : Nat) (r c : Fin 9)
    (ih : ∀ g', noConflict g' → ∀ h ∈ (solveAuxT fuel g').2, noConflict h) :
    ∀ (dom : List Nat) (g : Grid), g r c = 0 → noConflict g →
      (∀ n ∈ dom, n ≠ 0 ∧ is_valid g r c n = true) →
      ∀ h ∈ (tryNumsT (solveAuxT fuel) r c g dom).2, noConflict h := by
  intro dom
  induction dom with
  | nil =>
    intro g _ _ _ h hmem
    simp [tryNumsT] at hmem
  | cons n rest ihdom =>
    intro g hg hnc hdom h hmem
    obtain ⟨hn0, hnvalid⟩ := hdom n (by simp)
    have hncb : noConflict (setCell g r c n) := noConflict_setCell g r c n hnc hg hnvalid
    cases hres : solveAuxT fuel (setCell g r c n) with
    | mk p tr =>
      obtain ⟨b, g2⟩ := p
      have htr : ∀ h' ∈ tr, noConflict h' := by
        intro h' hh'
        have := ih (setCell g r c n) hncb h'
        rw [hres] at this
        exact this hh'
      cases b with
      | true =>
        simp only [tryNumsT, hres] at hmem
        rcases List.mem_cons.mp hmem with he | hmem'
        · subst he; exact hncb
        · exact htr h hmem'
      | false =>
        have hg2 : g2 = setCell g r c n := by
          have hx := solveAux_restore fuel (setCell g r c n)
          rw [← solveAuxT_fst, hres] at hx
          have := hx rfl
          exact this
        have hreset : setCell g2 r c 0 = g := by
          rw [hg2, setCell_setCell, setCell_eq_self g r c hg]
        simp only [tryNumsT, hres, hreset] at hmem
        rcases List.mem_cons.mp hmem with he | hmem'
        · subst he; exact hncb
        · rcases List.mem_append.mp hmem' with hmem'' | hmem''
          · exact htr h hmem''
          · rcases List.mem_cons.mp hmem'' with he | hmem'''
            · subst he; exact hnc
            · exact ihdom g hg hnc (fun m hm => hdom m (by simp [hm])) h hmem'''

lemma solveAuxT_trace : ∀ (fuel : Nat) (g : Grid), noConflict g →
    ∀ h ∈ (solveAuxT fuel g).2, noConflict h := by
  intro fuel
  induction fuel with
  | zero =>
    intro g _ h hmem
    simp [solveAuxT] at hmem
  | succ fuel ih =>
    intro g hnc h hmem
    cases hmrv : find_mrv_cell g with
    | none => simp [solveAuxT, hmrv] at hmem
    | some v =>
      obtain ⟨r, c, dom⟩ := v
      simp only [solveAuxT, hmrv] at hmem
      obtain ⟨hrc, hdom, _⟩ := find_mrv_cell_some g r c dom hmrv
      apply tryNumsT_trace fuel r c ih dom g hrc hnc ?_ h hmem
      intro n hn
      have := (mem_get_domain g r c n).mp (hdom ▸ hn)
      exact ⟨by omega, this.2.2.2⟩

/-! ### Every intermediate grid state preserves the pre-filled clues -/

lemma tryNumsT_trace_ext (fuel : Nat) (r c : Fin 9)
    (ih : ∀ g' (h : Grid), h ∈ (solveAuxT fuel g').2 →
      ∀ r' c', g' r' c' ≠ 0 → h r' c' = g' r' c') :
    ∀ (dom : List Nat) (g : Grid), g r c = 0 →
      ∀ h ∈ (tryNumsT (solveAuxT fuel) r c g dom).2,
        ∀ r' c', g r' c' ≠ 0 → h r' c' = g r' c' := by
  intro dom
  induction dom with
  | nil =>
    intro g _ h hmem
    simp [tryNumsT] at hmem
  | cons n rest ihdom =>
    intro g hg h hmem r' c' hnz
    have hne : ¬(r' = r ∧ c' = c) := by
      rintro ⟨e1, e2⟩
      subst e1; subst e2
      exact hnz hg
    have hset : setCell g r c n r' c' = g r' c' := setCell_ne g r c n hne
    cases hres : solveAuxT fuel (setCell g r c n) with
    | mk p tr =>
      obtain ⟨b, g2⟩ := p
      have htr : ∀ h' ∈ tr, h' r' c' = g r' c' := by
        intro h' hh'
        have hx := ih (setCell g r c n) h'
        rw [hres] at hx
        rw [hx hh' r' c' (by rw [hset]; exact hnz), hset]
      cases b with
      | true =>
        simp only [tryNumsT, hres] at hmem
        rcases List.mem_cons.mp hmem with he | hmem'
        · subst he; rw [hset]
        · exact htr h hmem'
      | false =>
        have hg2 : g2 r' c' = g r' c' := by
          have hx := solveAux_extends fuel (setCell g r c n) r' c'
            (by rw [hset]; exact hnz)
          rw [← solveAuxT_fst, hres] at hx
          rw [← hset]
          exact hx
        have hg3rc : setCell g2 r c 0 r c = 0 := setCell_same _ _ _ _
        have hg3 : setCell g2 r c 0 r' c' = g r' c' := by
          rw [setCell_ne _ _ _ _ hne, hg2]
        simp only [tryNumsT, hres] at hmem
        rcases List.mem_cons.mp hmem with he | hmem'
        · subst he; rw [hset]
        · rcases List.mem_append.mp hmem' with hmem'' | hmem''
          · exact htr h hmem''
          · rcases List.mem_cons.mp hmem'' with he | hmem'''
            · subst he; exact hg3
            · have := ihdom (setCell g2 r c 0) hg3rc h hmem''' r' c' (by rw [hg3]; exact hnz)
              rw [this, hg3]

lemma solveAuxT_trace_ext : ∀ (fuel : Nat) (g : Grid) (h : Grid),
    h ∈ (solveAuxT fuel g).2 → ∀ r' c', g r' c' ≠ 0 → h r' c' = g r' c' := by
  intro fuel
  induction fuel with
  | zero =>
    intro g h hmem
    simp [solveAuxT] at hmem
  | succ fuel ih =>
    intro g h hmem
    cases hmrv : find_mrv_cell g with
    | none => simp [solveAuxT, hmrv] at hmem
    | some v =>
      obtain ⟨r, c, dom⟩ := v
      simp only [solveAuxT, hmrv] at hmem
      have hrc := (find_mrv_cell_some g r c dom hmrv).1
      exact tryNumsT_trace_ext fuel r c ih dom g hrc h hmem

/-! ### Shared top-level correctness lemmas -/

lemma hasCompletion_noConflict {g : Grid} (hsol : ∃ s, legalCompletion s g) :
    noConflict g := by
  obtain ⟨s, hext, hvalid⟩ := hsol
  have hnc := completeValid_noConflict hvalid
  intro r c r' c' hne hnz hunit
  rw [← hext r c hnz]
  by_cases hz : g r' c' = 0
  · rw [hz]
    have := hvalid.1 r c
    omega
  · rw [← hext r' c' hz]
    have hs := hvalid.1 r c
    exact hnc r c r' c' hne (by omega) hunit

lemma hasCompletion_valBound {g : Grid} (hsol : ∃ s, legalCompletion s g) :
    valBound g := by
  obtain ⟨s, hext, hvalid⟩ := hsol
  intro r c
  by_cases hz : g r c = 0
  · omega
  · rw [← hext r c hz]
    exact (hvalid.1 r c).2

lemma solve_correct (g : Grid) (hnc : noConflict g) (hvb : valBound g)
    (hsol : ∃ s, legalCompletion s g) :
    (solve g).1 = true ∧ completeValid (solve g).2 := by
  have htrue : (solve g).1 = true :=
    solveAux_complete (numEmpty g + 1) g (Nat.lt_succ_self _) hsol
  have hsound := solveAux_sound (numEmpty g + 1) g hnc hvb htrue
  exact ⟨htrue, completeValid_of_filled _ hsound.1 hsound.2.2 hsound.2.1⟩

/-! ### The claims -/

/-- C1: for every 9x9 input grid that satisfies the row/column/box uniqueness
invariant and admits at least one legal completion, solve returns True and
afterwards the solver's grid is a complete valid Sudoku: every cell holds a digit
in [1,9] and each row, each column and each 3x3 box is a permutation of 1..9. -/
theorem C1_solve_solvable_succeeds_valid (g : Grid) (hinv : consistent g)
    (hsol : ∃ s, legalCompletion s g) :
    (solve g).1 = true ∧ completeValid (solve g).2 :=
  solve_correct g ((consistent_iff_noConflict g).mp hinv) (hasCompletion_valBound hsol) hsol

/-- C1 witness: the sample puzzle with one blank solves to a complete valid grid. -/
theorem C1_witness : (solve W1).1 = true ∧ completeValid (solve W1).2 :=
  C1_solve_solvable_succeeds_valid W1 (by decide) ⟨S, by decide⟩

/-- C2: whenever solve returns False, the grid after the call equals the grid
before the call: every placement made during the failed exploration was undone. -/
theorem C2_solve_failure_restores (g : Grid) (h : (solve g).1 = false) :
    (solve g).2 = g :=
  solveAux_restore (numEmpty g + 1) g h

/-- C2 witness: the unsolvable grid W2 makes solve fail and the grid is unchanged. -/
theorem C2_witness : (solve W2).2 = W2 :=
  C2_solve_failure_restores W2 (by decide)

/-- C3 counterexample: at the concrete solvable grid W1 the solver succeeds, yet
the caller's grid object still holds its original contents (cell (0,0) is still
empty) and is not a completed valid Sudoku, because the constructor stores a copy
of the caller's rows (self.grid = [row[:] for row in grid]) instead of borrowing
the caller's grid object. -/
theorem C3_counterexample :
    (runSolve (construct W1)).1 = true ∧
    (runSolve (construct W1)).2.caller 0 0 = 0 ∧
    ¬ completeValid (runSolve (construct W1)).2.caller := by
  refine ⟨by decide, by decide, ?_⟩
  intro h
  have h00 := (h.1 0 0).1
  have hc : (runSolve (construct W1)).2.caller 0 0 = 0 := by decide
  omega

/-- C3 amended: when solve returns True the completed valid solution is held by
the solver's own grid; the caller's grid object is never mutated, because the
constructor copies the caller's rows into the solver. -/
theorem C3_solver_grid_holds_solution (puzzle : Grid)
    (hsol : ∃ s, legalCompletion s puzzle) :
    (runSolve (construct puzzle)).2.caller = puzzle ∧
    (runSolve (construct puzzle)).1 = true ∧
    completeValid (runSolve (construct puzzle)).2.solver := by
  have h := solve_correct puzzle (hasCompletion_noConflict hsol)
    (hasCompletion_valBound hsol) hsol
  exact ⟨rfl, h.1, h.2⟩

/-- C3 witness: on the concrete grid W1, the caller's grid is returned unchanged
and the solver's grid holds the completed valid solution. -/
theorem C3_witness :
    (runSolve (construct W1)).2.caller = W1 ∧
    (runSolve (construct W1)).1 = true ∧
    completeValid (runSolve (construct W1)).2.solver :=
  C3_solver_grid_holds_solution W1 ⟨S, by decide⟩

/-- C4: for every grid, coordinates and num in [1,9], is_valid returns True iff
num occurs nowhere in the row, nowhere in the column, and nowhere in the 3x3 box
with origin (row/3*3, col/3*3); the embedding is a pure function of the grid, so
the call cannot change the grid. -/
theorem C4_is_valid_spec (g : Grid) (row col : Fin 9) (num : Nat)
    (_h1 : 1 ≤ num) (_h9 : num ≤ 9) :
    is_valid g row col num = true ↔
      (∀ c, g row c ≠ num) ∧ (∀ r, g r col ≠ num) ∧
      (∀ i j : Fin 3, g (boxIdx row i) (boxIdx col j) ≠ num) :=
  is_valid_iff g row col num

/-- C4 witness: the digit 5 is placeable at the blank cell of W1. -/
theorem C4_witness : is_valid W1 0 0 5 = true :=
  (C4_is_valid_spec W1 0 0 5 (by decide) (by decide)).mpr
    ⟨by decide, by decide, by decide⟩

/-- C5: get_domain returns the empty sequence for a filled cell; for an empty cell
it returns exactly the digits n of 1..9 with is_valid true, in strictly ascending
order. -/
theorem C5_get_domain_spec (g : Grid) (row col : Fin 9) :
    (g row col ≠ 0 → get_domain g row col = []) ∧
    (g row col = 0 →
      (∀ n, n ∈ get_domain g row col ↔ 1 ≤ n ∧ n ≤ 9 ∧ is_valid g row col n = true) ∧
      List.Pairwise (· < ·) (get_domain g row col)) := by
  refine ⟨get_domain_filled g row col, ?_⟩
  intro h0
  refine ⟨?_, get_domain_sorted g row col⟩
  intro n
  rw [mem_get_domain]
  tauto

/-- C5 witness: the domain of a filled cell is empty. -/
theorem C5_witness : get_domain S 0 0 = [] :=
  (C5_get_domain_spec S 0 0).1 (by decide)

/-- C6: find_mrv_cell returns None iff the grid has no empty cell; otherwise it
returns an empty cell together with its current domain, such that every empty
cell strictly earlier in row-major order has a strictly larger domain and no
later empty cell has a strictly smaller domain. -/
theorem C6_find_mrv_cell_spec (g : Grid) :
    (find_mrv_cell g = none ↔ ∀ r c, g r c ≠ 0) ∧
    (∀ (r c : Fin 9) (dom : List Nat), find_mrv_cell g = some (r, c, dom) →
      g r c = 0 ∧ dom = get_domain g r c ∧
      (∀ r' c', g r' c' = 0 → idx (r', c') < idx (r, c) →
        dom.length < (get_domain g r' c').length) ∧
      (∀ r' c', g r' c' = 0 → idx (r, c) < idx (r', c') →
        dom.length ≤ (get_domain g r' c').length)) := by
  refine ⟨find_mrv_cell_eq_none_iff g, ?_⟩
  intro r c dom h
  obtain ⟨h1, h2, h3⟩ := find_mrv_cell_some g r c dom h
  exact ⟨h1, h2, fun r' c' hz hlt => (h3 r' c' hz).1 hlt,
    fun r' c' hz hlt => (h3 r' c' hz).2 hlt⟩

/-- C6 witness: on W1 the MRV scan selects the unique blank cell with its domain. -/
theorem C6_witness : W1 0 0 = 0 ∧ [5] = get_domain W1 0 0 :=
  ⟨((C6_find_mrv_cell_spec W1).2 0 0 [5] (by decide)).1,
   ((C6_find_mrv_cell_spec W1).2 0 0 [5] (by decide)).2.1⟩

/-- C7: on a grid with no empty cell, solve returns True with the grid unchanged,
makes no placement (the trace of intermediate states is empty), and needs no
recursive call (fuel 1, which allows zero recursive calls, already suffices). -/
theorem C7_solved_grid_immediate (g : Grid) (h : ∀ r c, g r c ≠ 0) :
    solve g = (true, g) ∧ solveAux 1 g = (true, g) ∧ (solveTrace g).2 = [] := by
  have hmrv : find_mrv_cell g = none := (find_mrv_cell_eq_none_iff g).mpr h
  refine ⟨?_, ?_, ?_⟩
  · show solveAux (numEmpty g + 1) g = (true, g)
    simp [solveAux, hmrv]
  · simp [solveAux, hmrv]
  · show (solveAuxT (numEmpty g + 1) g).2 = []
    simp [solveAuxT, hmrv]

/-- C7 witness: solving the already-complete grid S returns it unchanged. -/
theorem C7_witness : solve S = (true, S) :=
  (C7_solved_grid_immediate S (by decide)).1

/-- C8: starting from a grid satisfying the uniqueness invariant, every
intermediate grid state reached during the run of solve (recorded after each
placement and after each undo by the instrumented run, which computes the same
result as solve) satisfies the invariant as well. -/
theorem C8_search_preserves_invariant (g : Grid) (hinv : consistent g) :
    (solveTrace g).1 = solve g ∧ ∀ h ∈ (solveTrace g).2, consistent h := by
  refine ⟨solveTrace_fst g, ?_⟩
  intro h hmem
  exact (consistent_iff_noConflict h).mpr
    (solveAuxT_trace (numEmpty g + 1) g ((consistent_iff_noConflict g).mp hinv) h hmem)

/-- C8 witness: the instrumented run on W1 computes the same result as solve. -/
theorem C8_witness : (solveTrace W1).1 = solve W1 :=
  (C8_search_preserves_invariant W1 (by decide)).1

/-- C9: solve terminates with a recursion depth bounded by the number of empty
cells: the number of empty cells is at most 81, any fuel exceeding it yields the
very same run as solve, and every recursive call operates on a grid with strictly
fewer empty cells. -/
theorem C9_depth_bounded_by_empty_cells (g : Grid) :
    numEmpty g ≤ 81 ∧
    (∀ fuel, numEmpty g < fuel → solveAux fuel g = solve g) ∧
    (∀ (r c : Fin 9) (dom : List Nat) (n : Nat),
      find_mrv_cell g = some (r, c, dom) → n ∈ dom →
      numEmpty (setCell g r c n) < numEmpty g) := by
  refine ⟨numEmpty_le_81 g, fun fuel h => solve_eq_solveAux g fuel h, ?_⟩
  intro r c dom n hmrv hn
  obtain ⟨hrc, hdom, _⟩ := find_mrv_cell_some g r c dom hmrv
  have hnz : n ≠ 0 := mem_get_domain_ne_zero g r c (hdom ▸ hn)
  rw [numEmpty_setCell g r c n hrc hnz]
  have := numEmpty_pos g r c hrc
  omega

/-- C9 witness: on W1 (one empty cell) fuel 5 already gives the canonical run. -/
theorem C9_witness : solveAux 5 W1 = solve W1 :=
  (C9_depth_bounded_by_empty_cells W1).2.1 5 (by decide)

/-- C10: solve writes only to cells that were empty at entry: every cell that was
non-zero at entry holds exactly its original value when solve returns, whether it
returns True or False, and also in every intermediate state of the search. -/
theorem C10_clues_never_overwritten (g : Grid) :
    (∀ r c, g r c ≠ 0 → (solve g).2 r c = g r c) ∧
    (∀ h ∈ (solveTrace g).2, ∀ r c, g r c ≠ 0 → h r c = g r c) := by
  refine ⟨fun r c h => solveAux_extends (numEmpty g + 1) g r c h, ?_⟩
  exact fun h hmem r c hnz => solveAuxT_trace_ext (numEmpty g + 1) g h hmem r c hnz

/-- C10 witness: the pre-filled clue at cell (0,1) of W1 survives solving. -/
theorem C10_witness : (solve W1).2 0 1 = W1 0 1 :=
  (C10_clues_never_overwritten W1).1 0 1 (by decide)

end SudokuCSP
